import Mathlib

/-!
Verification of the `Angle` type (src/angle.rs) and the dragon-drawing branch
of `main` (src/main.rs) of the toy-project repository.

Shallow-embedding conventions:

* `f64` magnitudes are modelled as exact rationals (`ℚ`).  Every arithmetic
  step of the source is mirrored on `ℚ`; the per-operation rounding of binary64
  arithmetic is idealized away.  All concrete values appearing in the claims
  (decimal literals, small dyadic fractions) are exactly representable, so the
  idealization is faithful on the inputs the theorems evaluate.
* `f64::trunc` is truncation toward zero (`truncQ`); the Rust numeric casts
  `as i32` / `as u32` are saturating truncations (`castI32`, `castU32`),
  exactly as Rust defines float-to-int casts.
* The constant `std::f64::consts::PI` is the binary64 number closest to π; its
  exact rational value is `PI` below.  Rust's `f64::to_degrees`/`to_radians`
  are multiplication by `180/PI` resp. `PI/180`, mirrored in `F64.to_degrees`
  and `F64.to_radians`.
* Rust strings are modelled as `List Char`; `str::ends_with`,
  `str::trim_end_matches` (char and substring patterns) and `str::trim_end`
  are mirrored on lists.  `str::parse::<f64>` is modelled by the grammar in
  the Rust standard-library documentation (`validF64`) together with the exact
  rational value of a finite numeric literal (`f64Val`); the numeric value of
  the non-finite literals `inf`/`infinity`/`nan` lies outside the rational
  model and is irrelevant to every claim (each one evaluates only finite
  literals), only their *acceptance* by the grammar is modelled.
* The degree marker accepted by `from_str` in the source is `'º'` (U+00BA,
  MASCULINE ORDINAL INDICATOR); the marker emitted by the `Display` impl is
  `'°'` (U+00B0, DEGREE SIGN).  Both code points are kept distinct here, as
  they are in the source.
-/

namespace ToyProject

/-- Model of `f64::trunc`: round toward zero. -/
def truncQ (q : ℚ) : ℤ := if q < 0 then -⌊-q⌋ else ⌊q⌋

/-- The Rust cast `x as i32` on an `f64` value: truncate toward zero and
saturate to the `i32` range. -/
def castI32 (q : ℚ) : ℤ := max (-(2 ^ 31)) (min (2 ^ 31 - 1) (truncQ q))

/-- The Rust cast `x as u32` on an `f64` value: truncate toward zero and
saturate to the `u32` range. -/
def castU32 (q : ℚ) : ℕ := (min (2 ^ 32 - 1) (max 0 (truncQ q))).toNat

/-- The exact rational value of the binary64 constant `std::f64::consts::PI`. -/
def PI : ℚ := 884279719003555 / 281474976710656

/-- Model of `f64::to_degrees`, defined in the Rust standard library as
`self * (180.0 / consts::PI)`. -/
def F64.to_degrees (x : ℚ) : ℚ := x * (180 / PI)

/-- Model of `f64::to_radians`, defined in the Rust standard library as
`self * (consts::PI / 180.0)`. -/
def F64.to_radians (x : ℚ) : ℚ := x * (PI / 180)

/-- The `Angle` enum of src/angle.rs: a magnitude tagged with its unit. -/
inductive Angle
  /-- An angle in degrees. -/
  | Degrees (deg : ℚ)
  /-- An angle in radians. -/
  | Radians (rad : ℚ)
deriving DecidableEq

/-- Model of `Angle::unwrap`: the underlying number. -/
def Angle.unwrap : Angle → ℚ
  | Angle.Degrees deg => deg
  | Angle.Radians rad => rad

/-- Model of `Angle::is_degrees`. -/
def Angle.is_degrees : Angle → Bool
  | Angle.Degrees _ => true
  | Angle.Radians _ => false

/-- Model of `Angle::is_radians`. -/
def Angle.is_radians : Angle → Bool
  | Angle.Degrees _ => false
  | Angle.Radians _ => true

/-- Model of `Angle::to_degrees`: the identity on `Degrees`, otherwise the `f64`
conversion of the wrapped radians. -/
def Angle.to_degrees : Angle → Angle
  | Angle.Degrees deg => Angle.Degrees deg
  | Angle.Radians rad => Angle.Degrees (F64.to_degrees rad)

/-- Model of `Angle::to_radians`: the identity on `Radians`, otherwise the `f64`
conversion of the wrapped degrees. -/
def Angle.to_radians : Angle → Angle
  | Angle.Degrees deg => Angle.Radians (F64.to_radians deg)
  | Angle.Radians rad => Angle.Radians rad

/-- Model of `Angle::to_dms` (src/angle.rs lines 89–97): decompose the degree form into
degrees, minutes and seconds, casting the three intermediate `f64` values with
`as i32` / `as u32`. -/
def Angle.to_dms (a : Angle) : ℤ × ℕ × ℕ :=
  let dd := a.to_degrees.unwrap
  let d : ℚ := (truncQ dd : ℚ)
  let m : ℚ := (truncQ ((dd - d) * 60) : ℚ)
  let s : ℚ := (dd - d - m / 60) * 3600
  (castI32 d, castU32 m, castU32 s)

/-- Model of `Angle::from_dms` (src/angle.rs lines 103–111): recompose a
degrees–minutes–seconds triple into a `Degrees`-tagged angle. -/
def Angle.from_dms (theta : ℤ × ℕ × ℕ) : Angle :=
  let d : ℚ := (theta.1 : ℚ)
  let m : ℚ := (theta.2.1 : ℚ)
  let s : ℚ := (theta.2.2 : ℚ)
  Angle.Degrees (d + m / 60 + s / 3600)

/-! ### The string layer: `Display`, `FromStr` and the `f64` literal grammar -/

/-- Rust `char::is_whitespace`: the Unicode `White_Space` code points. -/
def rustIsWhitespace (c : Char) : Bool :=
  c == ' ' || c == '\t' || c == '\n' || c == '\x0B' || c == '\x0C' || c == '\r'
    || c == '\u0085' || c == ' ' || c == ' '
    || c == ' ' || c == ' ' || c == ' ' || c == ' '
    || c == ' ' || c == ' ' || c == ' ' || c == ' '
    || c == ' ' || c == ' ' || c == ' '
    || c == ' ' || c == ' ' || c == ' '
    || c == ' ' || c == '　'

/-- Model of `str::ends_with` with a `char` pattern. -/
def endsWithChar (s : List Char) (c : Char) : Bool :=
  match s.getLast? with
  | some c2 => c2 == c
  | none => false

/-- Model of `str::ends_with` with a `&str` pattern. -/
def endsWithSeq (s pat : List Char) : Bool := pat.isSuffixOf s

/-- Model of `str::trim_end_matches` with a `char` pattern: remove every trailing
occurrence of the character. -/
def trimEndMatchesChar (s : List Char) (c : Char) : List Char :=
  (s.reverse.dropWhile (fun x => x == c)).reverse

/-- Model of `str::trim_end`: remove all trailing whitespace. -/
def trimEnd (s : List Char) : List Char :=
  (s.reverse.dropWhile rustIsWhitespace).reverse

/-- Fuel-driven worker for `trimEndMatchesSeq`.  A nonempty pattern removes at
least one character per step, so fuel `s.length` always suffices. -/
def trimEndMatchesSeqAux : ℕ → List Char → List Char → List Char
  | 0, s, _ => s
  | fuel + 1, s, pat =>
    if pat.isSuffixOf s && !pat.isEmpty then
      trimEndMatchesSeqAux fuel (s.take (s.length - pat.length)) pat
    else s

/-- Model of `str::trim_end_matches` with a `&str` pattern: repeatedly remove the
suffix while it matches the pattern. -/
def trimEndMatchesSeq (s pat : List Char) : List Char :=
  trimEndMatchesSeqAux s.length s pat

/-- One optional leading sign of an `f64` literal: `(negative?, rest)`. -/
def splitSign : List Char → Bool × List Char
  | '-' :: rest => (true, rest)
  | '+' :: rest => (false, rest)
  | s => (false, s)

/-- The optional exponent tail of the `f64` grammar:
nothing, or `('e' | 'E') Sign? Digit+`. -/
def expTailOk : List Char → Bool
  | [] => true
  | c :: rest =>
    (c == 'e' || c == 'E') &&
      (let r := (splitSign rest).2
       !r.isEmpty && r.all Char.isDigit)

/-- The `Number` production of the `f64` grammar:
`Digit+ '.'? Digit* Exp?` or `'.' Digit+ Exp?`. -/
def validNumber (t : List Char) : Bool :=
  let d1 := t.takeWhile Char.isDigit
  let r1 := t.dropWhile Char.isDigit
  if r1.head? == some '.' then
    let r2 := r1.tail
    let d2 := r2.takeWhile Char.isDigit
    let r3 := r2.dropWhile Char.isDigit
    (!d1.isEmpty || !d2.isEmpty) && expTailOk r3
  else !d1.isEmpty && expTailOk r1

/-- Recognizer for `str::parse::<f64>` (the grammar documented for
`f64::from_str`): an optional sign followed, case-insensitively, by `inf`,
`infinity`, `nan`, or a `Number`. -/
def validF64 (s : List Char) : Bool :=
  let t := (splitSign s).2
  let low := t.map Char.toLower
  low == "inf".data || low == "infinity".data || low == "nan".data
    || validNumber t

/-- Numeric value of a decimal digit string. -/
def digitsToNat (ds : List Char) : ℕ :=
  ds.foldl (fun acc c => 10 * acc + (c.toNat - 48)) 0

/-- Value of the optional exponent tail. -/
def expTailVal : List Char → ℤ
  | [] => 0
  | _ :: rest =>
    match splitSign rest with
    | (true, ds) => -(digitsToNat ds : ℤ)
    | (false, ds) => (digitsToNat ds : ℤ)

/-- Mantissa value of a `Number`, together with its exponent tail. -/
def mantissaVal (t : List Char) : ℚ × List Char :=
  let d1 := t.takeWhile Char.isDigit
  let r1 := t.dropWhile Char.isDigit
  if r1.head? == some '.' then
    let r2 := r1.tail
    let d2 := r2.takeWhile Char.isDigit
    let r3 := r2.dropWhile Char.isDigit
    ((digitsToNat d1 : ℚ) + (digitsToNat d2 : ℚ) / 10 ^ d2.length, r3)
  else ((digitsToNat d1 : ℚ), r1)

/-- Exact rational value of a finite numeric `f64` literal (garbage on the
non-finite literals `inf`/`infinity`/`nan`, which no claim evaluates). -/
def f64Val (s : List Char) : ℚ :=
  let sgn := splitSign s
  let mv := mantissaVal sgn.2
  let v := mv.1 * (10 : ℚ) ^ expTailVal mv.2
  if sgn.1 then -v else v

/-- The kind carried by `std::num::ParseFloatError`. -/
inductive FloatErrorKind
  | empty
  | invalid
deriving DecidableEq

/-- Model of `str::parse::<f64>`: the empty string gives the `Empty` error kind, a
nonempty string outside the grammar the `Invalid` kind, and a string inside
the grammar its value. -/
def parseF64 (s : List Char) : Except FloatErrorKind ℚ :=
  if s.isEmpty then Except.error FloatErrorKind.empty
  else if validF64 s then Except.ok (f64Val s)
  else Except.error FloatErrorKind.invalid

/-- The `ParseAngleError` enum of src/angle.rs (lines 123–127). -/
inductive ParseAngleError
  | UnrecognizedUnit
  | ParseFloatError (kind : FloatErrorKind)
deriving DecidableEq

/-- The degree marker accepted by `from_str`: `'º'` (U+00BA, MASCULINE
ORDINAL INDICATOR), exactly the character in src/angle.rs line 151. -/
def degMarker : Char := 'º'

/-- The radian marker: the string `"rad."`. -/
def radMarker : List Char := "rad.".data

/-- Model of `Angle::from_str` (src/angle.rs lines 150–168). -/
def Angle.from_str (s : List Char) : Except ParseAngleError Angle :=
  if endsWithChar s degMarker then
    match parseF64 (trimEnd (trimEndMatchesChar s degMarker)) with
    | Except.ok deg => Except.ok (Angle.Degrees deg)
    | Except.error e => Except.error (ParseAngleError.ParseFloatError e)
  else if endsWithSeq s radMarker then
    match parseF64 (trimEnd (trimEndMatchesSeq s radMarker)) with
    | Except.ok rad => Except.ok (Angle.Radians rad)
    | Except.error e => Except.error (ParseAngleError.ParseFloatError e)
  else Except.error ParseAngleError.UnrecognizedUnit

/-- Decimal digit characters of a natural number (fuel-driven worker). -/
def natDigitsAux : ℕ → ℕ → List Char
  | 0, _ => []
  | fuel + 1, n =>
    if n = 0 then []
    else natDigitsAux fuel (n / 10) ++ [Char.ofNat (48 + n % 10)]

/-- Decimal digit characters of a natural number. -/
def natDigits (n : ℕ) : List Char :=
  if n = 0 then ['0'] else natDigitsAux (n + 1) n

/-- Decimal digit characters of a fractional part `q ∈ [0, 1)`
(fuel-bounded; every binary64 fraction terminates well within the fuel). -/
def fracDigits : ℕ → ℚ → List Char
  | 0, _ => []
  | fuel + 1, q =>
    if q = 0 then []
    else Char.ofNat (48 + (⌊q * 10⌋).toNat)
      :: fracDigits fuel (q * 10 - (⌊q * 10⌋ : ℚ))

/-- Rust's `Display` for `f64` prints the shortest decimal string that
uniquely identifies the value; on the exact-rational model this is the exact
finite decimal expansion (the two agree on every magnitude the claims
evaluate). -/
def fmtF64 (q : ℚ) : List Char :=
  let a := |q|
  let ip := (⌊a⌋).toNat
  let fp := a - (⌊a⌋ : ℚ)
  let ds := natDigits ip ++ (if fp = 0 then [] else '.' :: fracDigits 1200 fp)
  if q < 0 then '-' :: ds else ds

/-- The degree marker written by the `Display` impl (src/angle.rs line 117):
`'°'` (U+00B0, DEGREE SIGN) — NOT the `'º'` (U+00BA) that `from_str`
accepts. -/
def degDisplayMarker : Char := '°'

/-- The `Display` impl for `Angle` (src/angle.rs lines 114–121):
`"{value}°"` for degrees, `"{value} rad."` for radians. -/
def Angle.display : Angle → List Char
  | Angle.Degrees deg => fmtF64 deg ++ [degDisplayMarker]
  | Angle.Radians rad => fmtF64 rad ++ " rad.".data

/-! ### Basic facts about truncation and the saturating casts -/

theorem truncQ_intCast (n : ℤ) : truncQ (n : ℚ) = n := by
  unfold truncQ
  rcases lt_or_le (n : ℚ) 0 with h | h
  · rw [if_pos h]
    rw [show (-(n : ℚ)) = ((-n : ℤ) : ℚ) by push_cast; ring]
    rw [Int.floor_intCast]
    ring
  · rw [if_neg (not_lt.2 h), Int.floor_intCast]

theorem truncQ_of_nonneg (q : ℚ) (h : 0 ≤ q) : truncQ q = ⌊q⌋ := by
  unfold truncQ
  exact if_neg (not_lt.2 h)

theorem truncQ_of_neg (q : ℚ) (h : q < 0) : truncQ q = -⌊-q⌋ := by
  unfold truncQ
  exact if_pos h

theorem truncQ_nonneg (q : ℚ) (h : 0 ≤ q) : 0 ≤ truncQ q := by
  rw [truncQ_of_nonneg q h]
  exact Int.floor_nonneg.2 h

theorem truncQ_nonpos (q : ℚ) (h : q ≤ 0) : truncQ q ≤ 0 := by
  rcases lt_or_eq_of_le h with h' | h'
  · rw [truncQ_of_neg q h']
    simp only [neg_nonpos]
    exact Int.floor_nonneg.2 (by linarith)
  · subst h'
    simp [truncQ]

theorem truncQ_le_self_of_nonneg (q : ℚ) (h : 0 ≤ q) : (truncQ q : ℚ) ≤ q := by
  rw [truncQ_of_nonneg q h]
  exact Int.floor_le q

theorem self_lt_truncQ_add_one_of_nonneg (q : ℚ) (h : 0 ≤ q) :
    q < (truncQ q : ℚ) + 1 := by
  rw [truncQ_of_nonneg q h]
  exact Int.lt_floor_add_one q

theorem self_le_truncQ_of_nonpos (q : ℚ) (h : q ≤ 0) : q ≤ (truncQ q : ℚ) := by
  rcases lt_or_eq_of_le h with h' | h'
  · rw [truncQ_of_neg q h']
    push_cast
    have := Int.floor_le (-q)
    linarith
  · subst h'
    simp [truncQ]

theorem truncQ_lt_add_one_of_nonpos (q : ℚ) (h : q ≤ 0) :
    (truncQ q : ℚ) < q + 1 := by
  rcases lt_or_eq_of_le h with h' | h'
  · rw [truncQ_of_neg q h']
    push_cast
    have := Int.lt_floor_add_one (-q)
    linarith
  · subst h'
    simp [truncQ]

theorem castI32_of_range (q : ℚ) (h0 : -(2 ^ 31) ≤ truncQ q)
    (h1 : truncQ q ≤ 2 ^ 31 - 1) : castI32 q = truncQ q := by
  unfold castI32
  omega

theorem castU32_of_range (q : ℚ) (h0 : 0 ≤ truncQ q)
    (h1 : truncQ q ≤ 2 ^ 32 - 1) : castU32 q = (truncQ q).toNat := by
  unfold castU32
  omega

theorem castU32_of_nonpos (q : ℚ) (h : truncQ q ≤ 0) : castU32 q = 0 := by
  unfold castU32
  omega

theorem castU32_le (q : ℚ) (n : ℕ) (h : truncQ q ≤ (n : ℤ)) : castU32 q ≤ n := by
  unfold castU32
  omega

theorem castI32_intCast (n : ℤ) :
    castI32 ((n : ℚ)) = max (-(2 ^ 31)) (min (2 ^ 31 - 1) n) := by
  unfold castI32
  rw [truncQ_intCast]

theorem castU32_intCast (n : ℤ) :
    castU32 ((n : ℚ)) = (min (2 ^ 32 - 1) (max 0 n)).toNat := by
  unfold castU32
  rw [truncQ_intCast]

theorem castI32_intCast_of_range (n : ℤ) (h0 : -(2 ^ 31) ≤ n)
    (h1 : n ≤ 2 ^ 31 - 1) : castI32 ((n : ℚ)) = n := by
  rw [castI32_intCast]
  omega

theorem castU32_intCast_of_range (n : ℤ) (h0 : 0 ≤ n)
    (h1 : n ≤ 2 ^ 32 - 1) : castU32 ((n : ℚ)) = n.toNat := by
  rw [castU32_intCast]
  omega

/-! ### The fractional-part analysis underlying `to_dms` -/

theorem frac_bounds_of_nonneg (dd : ℚ) (h : 0 ≤ dd) :
    0 ≤ dd - (truncQ dd : ℚ) ∧ dd - (truncQ dd : ℚ) < 1 := by
  have h1 := truncQ_le_self_of_nonneg dd h
  have h2 := self_lt_truncQ_add_one_of_nonneg dd h
  constructor <;> linarith

theorem frac_bounds_of_neg (dd : ℚ) (h : dd < 0) :
    -1 < dd - (truncQ dd : ℚ) ∧ dd - (truncQ dd : ℚ) ≤ 0 := by
  have h1 := self_le_truncQ_of_nonpos dd h.le
  have h2 := truncQ_lt_add_one_of_nonpos dd h.le
  constructor <;> linarith

theorem minute_trunc_bounds_of_nonneg (dd : ℚ) (h : 0 ≤ dd) :
    0 ≤ truncQ ((dd - (truncQ dd : ℚ)) * 60)
    ∧ truncQ ((dd - (truncQ dd : ℚ)) * 60) ≤ 59 := by
  obtain ⟨hf0, hf1⟩ := frac_bounds_of_nonneg dd h
  have hx0 : 0 ≤ (dd - (truncQ dd : ℚ)) * 60 := by linarith
  have hx1 : (dd - (truncQ dd : ℚ)) * 60 < 60 := by linarith
  rw [truncQ_of_nonneg _ hx0]
  refine ⟨Int.floor_nonneg.2 hx0, ?_⟩
  have : ⌊(dd - (truncQ dd : ℚ)) * 60⌋ < 60 := Int.floor_lt.2 (by exact_mod_cast hx1)
  omega

theorem minute_trunc_bounds_of_neg (dd : ℚ) (h : dd < 0) :
    -59 ≤ truncQ ((dd - (truncQ dd : ℚ)) * 60)
    ∧ truncQ ((dd - (truncQ dd : ℚ)) * 60) ≤ 0 := by
  obtain ⟨hf0, hf1⟩ := frac_bounds_of_neg dd h
  have hx0 : (dd - (truncQ dd : ℚ)) * 60 ≤ 0 := by linarith
  have hx1 : -60 < (dd - (truncQ dd : ℚ)) * 60 := by linarith
  refine ⟨?_, truncQ_nonpos _ hx0⟩
  have h2 := self_le_truncQ_of_nonpos _ hx0
  have : (-60 : ℚ) < (truncQ ((dd - (truncQ dd : ℚ)) * 60) : ℚ) := by linarith
  have : (-60 : ℤ) < truncQ ((dd - (truncQ dd : ℚ)) * 60) := by exact_mod_cast this
  omega

theorem second_val_bounds_of_nonneg (dd : ℚ) (h : 0 ≤ dd) :
    0 ≤ (dd - (truncQ dd : ℚ)
        - (truncQ ((dd - (truncQ dd : ℚ)) * 60) : ℚ) / 60) * 3600
    ∧ (dd - (truncQ dd : ℚ)
        - (truncQ ((dd - (truncQ dd : ℚ)) * 60) : ℚ) / 60) * 3600 < 60 := by
  obtain ⟨hf0, _⟩ := frac_bounds_of_nonneg dd h
  have hx0 : 0 ≤ (dd - (truncQ dd : ℚ)) * 60 := by linarith
  have h1 := truncQ_le_self_of_nonneg _ hx0
  have h2 := self_lt_truncQ_add_one_of_nonneg _ hx0
  constructor <;> linarith

theorem second_val_nonpos_of_neg (dd : ℚ) (h : dd < 0) :
    (dd - (truncQ dd : ℚ)
        - (truncQ ((dd - (truncQ dd : ℚ)) * 60) : ℚ) / 60) * 3600 ≤ 0 := by
  obtain ⟨_, hf1⟩ := frac_bounds_of_neg dd h
  have hx0 : (dd - (truncQ dd : ℚ)) * 60 ≤ 0 := by linarith
  have h1 := self_le_truncQ_of_nonpos _ hx0
  linarith

/-- Unfolding equation for `to_dms` on a `Degrees`-tagged angle. -/
theorem to_dms_degrees_eq (dd : ℚ) :
    (Angle.Degrees dd).to_dms =
      (castI32 ((truncQ dd : ℚ)),
       castU32 ((truncQ ((dd - (truncQ dd : ℚ)) * 60) : ℚ)),
       castU32 ((dd - (truncQ dd : ℚ)
          - (truncQ ((dd - (truncQ dd : ℚ)) * 60) : ℚ) / 60) * 3600)) := rfl

/-- Model of `to_dms` of any angle is `to_dms` of the `Degrees`-tagged angle holding its
degree form. -/
theorem to_dms_eq_degrees_unwrap (a : Angle) :
    a.to_dms = (Angle.Degrees a.to_degrees.unwrap).to_dms := by
  cases a <;> rfl

/-! ### C4: the shape and bounds of `to_dms` -/

/-- Claim C4. `to_dms` converts the angle to its degree form `dd` and decomposes
it by truncation toward zero at each step — `d = trunc dd`,
`m = trunc ((dd - d) * 60)`, `s = (dd - d - m/60) * 3600` — casting the three
values with the saturating `as i32` / `as u32` casts; the returned minutes and
seconds always lie in `[0, 60)`. -/
theorem to_dms_truncation_bounds (a : Angle) :
    a.to_dms =
      (castI32 ((truncQ a.to_degrees.unwrap : ℚ)),
       castU32 ((truncQ ((a.to_degrees.unwrap
          - (truncQ a.to_degrees.unwrap : ℚ)) * 60) : ℚ)),
       castU32 ((a.to_degrees.unwrap - (truncQ a.to_degrees.unwrap : ℚ)
          - (truncQ ((a.to_degrees.unwrap
              - (truncQ a.to_degrees.unwrap : ℚ)) * 60) : ℚ) / 60) * 3600))
    ∧ a.to_dms.2.1 < 60 ∧ a.to_dms.2.2 < 60 := by
  rw [to_dms_eq_degrees_unwrap, to_dms_degrees_eq]
  refine ⟨rfl, ?_, ?_⟩
  · refine Nat.lt_succ_of_le (castU32_le _ 59 ?_)
    rw [truncQ_intCast]
    rcases le_or_lt 0 a.to_degrees.unwrap with h | h
    · exact (minute_trunc_bounds_of_nonneg _ h).2.trans (by norm_num)
    · exact (minute_trunc_bounds_of_neg _ h).2.trans (by norm_num)
  · refine Nat.lt_succ_of_le (castU32_le _ 59 ?_)
    rcases le_or_lt 0 a.to_degrees.unwrap with h | h
    · obtain ⟨hs0, hs1⟩ := second_val_bounds_of_nonneg _ h
      rw [truncQ_of_nonneg _ hs0]
      have : ⌊(a.to_degrees.unwrap - (truncQ a.to_degrees.unwrap : ℚ)
          - (truncQ ((a.to_degrees.unwrap
              - (truncQ a.to_degrees.unwrap : ℚ)) * 60) : ℚ) / 60) * 3600⌋
          < 60 := Int.floor_lt.2 (by exact_mod_cast hs1)
      omega
    · exact (truncQ_nonpos _ (second_val_nonpos_of_neg _ h)).trans (by norm_num)

/-! ### C8: negative fractional angles are clamped by the unsigned casts -/

/-- Claim C8. For every `Degrees`-tagged angle with negative, non-integer
magnitude, `to_dms` returns zero minutes and zero seconds: the negative
fractional remainders are clamped to `0` by the `as u32` casts, so the triple
drops the fractional part entirely and keeps only the truncated degrees. -/
theorem to_dms_negative_clamp (deg : ℚ) (hneg : deg < 0)
    (hni : (truncQ deg : ℚ) ≠ deg) :
    (Angle.Degrees deg).to_dms = (castI32 ((truncQ deg : ℚ)), 0, 0) := by
  rw [to_dms_degrees_eq]
  refine congrArg (fun p => (castI32 ((truncQ deg : ℚ)), p)) ?_
  have hm := castU32_of_nonpos ((truncQ ((deg - (truncQ deg : ℚ)) * 60) : ℚ))
    (by rw [truncQ_intCast]; exact (minute_trunc_bounds_of_neg deg hneg).2)
  have hs := castU32_of_nonpos _
    (truncQ_nonpos _ (second_val_nonpos_of_neg deg hneg))
  rw [hm, hs]

/-- Concrete instance of `to_dms_negative_clamp` at `-45.5` degrees: the
result is `(-45, 0, 0)`. -/
theorem to_dms_negative_clamp_witness :
    (Angle.Degrees (-(91 / 2) : ℚ)).to_dms = (-45, 0, 0) := by
  have htr : truncQ (-(91 / 2) : ℚ) = -45 := by
    rw [truncQ_of_neg _ (by norm_num)]
    norm_num
  have h := to_dms_negative_clamp (-(91 / 2) : ℚ) (by norm_num)
    (by rw [htr]; norm_num)
  rw [h, htr, castI32_intCast_of_range (-45) (by norm_num) (by norm_num)]

/-! ### C3: the DMS round-trip -/

theorem truncQ_zero : truncQ 0 = 0 := by
  rw [truncQ_of_nonneg 0 le_rfl]
  exact Int.floor_zero

/-- Unfolding equation for `from_dms` (helper shared by the proofs below). -/
theorem from_dms_eq (d : ℤ) (m s : ℕ) :
    Angle.from_dms (d, m, s) =
      Angle.Degrees ((d : ℚ) + (m : ℚ) / 60 + (s : ℚ) / 3600) := rfl

/-- Model of `to_dms` of an exact integer number of degrees in `i32` range. -/
theorem to_dms_intCast (t : ℤ) (h0 : -(2 ^ 31) ≤ t) (h1 : t ≤ 2 ^ 31 - 1) :
    (Angle.Degrees ((t : ℚ))).to_dms = (t, 0, 0) := by
  have hz : castU32 ((0 : ℚ)) = 0 := castU32_of_nonpos 0 (le_of_eq truncQ_zero)
  rw [to_dms_degrees_eq, truncQ_intCast, sub_self, zero_mul, truncQ_zero]
  norm_num [hz, castI32_intCast_of_range t h0 h1]

/-- Model of `to_dms` of `t + mt/60 + st/3600` degrees with `t` nonnegative and in
`i32` range and `mt`, `st` in `[0, 59]` recovers the triple exactly. -/
theorem to_dms_reconstruct_nonneg (t mt st : ℤ) (ht0 : 0 ≤ t)
    (ht1 : t ≤ 2 ^ 31 - 1) (hm0 : 0 ≤ mt) (hm1 : mt ≤ 59)
    (hs0 : 0 ≤ st) (hs1 : st ≤ 59) :
    (Angle.Degrees ((t : ℚ) + (mt : ℚ) / 60 + (st : ℚ) / 3600)).to_dms
      = (t, mt.toNat, st.toNat) := by
  have hmq0 : (0 : ℚ) ≤ (mt : ℚ) := by exact_mod_cast hm0
  have hmq1 : (mt : ℚ) ≤ 59 := by exact_mod_cast hm1
  have hsq0 : (0 : ℚ) ≤ (st : ℚ) := by exact_mod_cast hs0
  have hsq1 : (st : ℚ) ≤ 59 := by exact_mod_cast hs1
  have htq0 : (0 : ℚ) ≤ (t : ℚ) := by exact_mod_cast ht0
  have htr : truncQ ((t : ℚ) + (mt : ℚ) / 60 + (st : ℚ) / 3600) = t := by
    rw [truncQ_of_nonneg _ (by linarith)]
    rw [show (t : ℚ) + (mt : ℚ) / 60 + (st : ℚ) / 3600
        = ((mt : ℚ) / 60 + (st : ℚ) / 3600) + (t : ℚ) by ring]
    rw [Int.floor_add_int]
    have : ⌊(mt : ℚ) / 60 + (st : ℚ) / 3600⌋ = 0 :=
      Int.floor_eq_zero_iff.2 (Set.mem_Ico.2 ⟨by linarith, by linarith⟩)
    omega
  have hmr : truncQ (((t : ℚ) + (mt : ℚ) / 60 + (st : ℚ) / 3600
      - ((t : ℚ))) * 60) = mt := by
    rw [show ((t : ℚ) + (mt : ℚ) / 60 + (st : ℚ) / 3600 - ((t : ℚ))) * 60
        = (st : ℚ) / 60 + (mt : ℚ) by ring]
    rw [truncQ_of_nonneg _ (by linarith)]
    rw [show ((mt : ℚ)) = (((mt : ℤ) : ℤ) : ℚ) by norm_cast, Int.floor_add_int]
    have : ⌊(st : ℚ) / 60⌋ = 0 :=
      Int.floor_eq_zero_iff.2 (Set.mem_Ico.2 ⟨by linarith, by linarith⟩)
    omega
  rw [to_dms_degrees_eq, htr, hmr]
  rw [show ((t : ℚ) + (mt : ℚ) / 60 + (st : ℚ) / 3600 - ((t : ℚ))
      - ((mt : ℚ)) / 60) * 3600 = ((st : ℚ)) by ring]
  rw [castI32_intCast_of_range t (by omega) ht1,
      castU32_intCast_of_range mt hm0 (by omega),
      castU32_intCast_of_range st hs0 (by omega)]

/-- The DMS round-trip for a `Degrees`-tagged angle whose truncated magnitude
fits in `i32`. -/
theorem dms_roundtrip_degrees (dd : ℚ) (h0 : -(2 ^ 31) ≤ truncQ dd)
    (h1 : truncQ dd ≤ 2 ^ 31 - 1) :
    (Angle.from_dms (Angle.Degrees dd).to_dms).to_dms
      = (Angle.Degrees dd).to_dms := by
  rcases le_or_lt 0 dd with hpos | hneg
  · obtain ⟨hm0, hm1⟩ := minute_trunc_bounds_of_nonneg dd hpos
    obtain ⟨hsv0, hsv1⟩ := second_val_bounds_of_nonneg dd hpos
    have hst0 : 0 ≤ truncQ ((dd - (truncQ dd : ℚ)
        - (truncQ ((dd - (truncQ dd : ℚ)) * 60) : ℚ) / 60) * 3600) :=
      truncQ_nonneg _ hsv0
    have hst1 : truncQ ((dd - (truncQ dd : ℚ)
        - (truncQ ((dd - (truncQ dd : ℚ)) * 60) : ℚ) / 60) * 3600) ≤ 59 := by
      rw [truncQ_of_nonneg _ hsv0]
      have := Int.floor_lt.2 (show (dd - (truncQ dd : ℚ)
          - (truncQ ((dd - (truncQ dd : ℚ)) * 60) : ℚ) / 60) * 3600
          < ((60 : ℤ) : ℚ) by exact_mod_cast hsv1)
      omega
    have hfirst : (Angle.Degrees dd).to_dms =
        (truncQ dd,
         (truncQ ((dd - (truncQ dd : ℚ)) * 60)).toNat,
         (truncQ ((dd - (truncQ dd : ℚ)
            - (truncQ ((dd - (truncQ dd : ℚ)) * 60) : ℚ) / 60) * 3600)).toNat) := by
      rw [to_dms_degrees_eq, castI32_intCast_of_range _ h0 h1,
          castU32_intCast_of_range _ hm0 (by omega),
          castU32_of_range _ hst0 (by omega)]
    rw [hfirst, from_dms_eq]
    rw [show (((truncQ ((dd - (truncQ dd : ℚ)) * 60)).toNat : ℚ))
        = ((truncQ ((dd - (truncQ dd : ℚ)) * 60) : ℚ)) by
          exact_mod_cast Int.toNat_of_nonneg hm0]
    rw [show (((truncQ ((dd - (truncQ dd : ℚ)
          - (truncQ ((dd - (truncQ dd : ℚ)) * 60) : ℚ) / 60) * 3600)).toNat : ℚ))
        = ((truncQ ((dd - (truncQ dd : ℚ)
          - (truncQ ((dd - (truncQ dd : ℚ)) * 60) : ℚ) / 60) * 3600) : ℚ)) by
          exact_mod_cast Int.toNat_of_nonneg hst0]
    exact to_dms_reconstruct_nonneg (truncQ dd)
      (truncQ ((dd - (truncQ dd : ℚ)) * 60))
      (truncQ ((dd - (truncQ dd : ℚ)
        - (truncQ ((dd - (truncQ dd : ℚ)) * 60) : ℚ) / 60) * 3600))
      (truncQ_nonneg dd hpos) h1 hm0 hm1 hst0 hst1
  · obtain ⟨_, hm1⟩ := minute_trunc_bounds_of_neg dd hneg
    have hsq := second_val_nonpos_of_neg dd hneg
    have hfirst : (Angle.Degrees dd).to_dms = (truncQ dd, 0, 0) := by
      rw [to_dms_degrees_eq, castI32_intCast_of_range _ h0 h1,
          castU32_of_nonpos _ (by rw [truncQ_intCast]; exact hm1),
          castU32_of_nonpos _ (truncQ_nonpos _ hsq)]
    rw [hfirst, from_dms_eq]
    rw [show ((truncQ dd : ℚ) + ((0 : ℕ) : ℚ) / 60 + ((0 : ℕ) : ℚ) / 3600)
        = ((truncQ dd : ℚ)) by push_cast; ring]
    rw [to_dms_intCast _ h0 h1]

/-- Claim C3. For every angle whose truncated degree magnitude is within the
`i32` range, composing `to_dms`, `from_dms` and `to_dms` again reproduces the
first `to_dms` triple: `from_dms (a.to_dms).to_dms = a.to_dms`. -/
theorem dms_roundtrip (a : Angle)
    (h0 : -(2 ^ 31) ≤ truncQ a.to_degrees.unwrap)
    (h1 : truncQ a.to_degrees.unwrap ≤ 2 ^ 31 - 1) :
    (Angle.from_dms a.to_dms).to_dms = a.to_dms := by
  rw [to_dms_eq_degrees_unwrap a]
  exact dms_roundtrip_degrees a.to_degrees.unwrap h0 h1

/-- Concrete instance of `dms_roundtrip` at `45.5` degrees. -/
theorem dms_roundtrip_witness :
    (Angle.from_dms (Angle.Degrees (91 / 2 : ℚ)).to_dms).to_dms
      = (Angle.Degrees (91 / 2 : ℚ)).to_dms := by
  have htr : truncQ (Angle.Degrees (91 / 2 : ℚ)).to_degrees.unwrap = 45 := by
    show truncQ ((91 / 2 : ℚ)) = 45
    rw [truncQ_of_nonneg _ (by norm_num)]
    norm_num
  exact dms_roundtrip (Angle.Degrees (91 / 2 : ℚ))
    (by rw [htr]; norm_num) (by rw [htr]; norm_num)

/-! ### C5: `from_dms` recomposition -/

/-- Claim C5. For every triple `(d, m, s)` with `d` a signed integer and `m`, `s`
unsigned integers, `from_dms (d, m, s)` is a `Degrees`-tagged angle whose
magnitude is `d + m/60 + s/3600`. -/
theorem from_dms_spec (d : ℤ) (m s : ℕ) :
    Angle.from_dms (d, m, s) =
      Angle.Degrees ((d : ℚ) + (m : ℚ) / 60 + (s : ℚ) / 3600) := rfl

/-! ### C6: unit conversions -/

/-- Claim C6. `to_degrees` is the identity on a `Degrees`-tagged angle and
`to_radians` is the identity on a `Radians`-tagged angle; on the other unit
they switch the tag and scale the magnitude by the standard factor: `180/π`
from radians to degrees and `π/180` from degrees to radians (with `π` the
`f64` constant `std::f64::consts::PI`). -/
theorem unit_conversion_spec (x : ℚ) :
    (Angle.Degrees x).to_degrees = Angle.Degrees x
    ∧ (Angle.Radians x).to_radians = Angle.Radians x
    ∧ (Angle.Radians x).to_degrees = Angle.Degrees (x * (180 / PI))
    ∧ (Angle.Degrees x).to_radians = Angle.Radians (x * (PI / 180)) :=
  ⟨rfl, rfl, rfl, rfl⟩

/-! ### C2: the exact error conditions of `from_str` -/

theorem from_str_deg_branch (s : List Char)
    (h : endsWithChar s degMarker = true) :
    Angle.from_str s =
      match parseF64 (trimEnd (trimEndMatchesChar s degMarker)) with
      | Except.ok deg => Except.ok (Angle.Degrees deg)
      | Except.error e => Except.error (ParseAngleError.ParseFloatError e) := by
  simp [Angle.from_str, h]

theorem from_str_rad_branch (s : List Char)
    (h1 : endsWithChar s degMarker = false)
    (h2 : endsWithSeq s radMarker = true) :
    Angle.from_str s =
      match parseF64 (trimEnd (trimEndMatchesSeq s radMarker)) with
      | Except.ok rad => Except.ok (Angle.Radians rad)
      | Except.error e => Except.error (ParseAngleError.ParseFloatError e) := by
  simp [Angle.from_str, h1, h2]

theorem from_str_none (s : List Char)
    (h1 : endsWithChar s degMarker = false)
    (h2 : endsWithSeq s radMarker = false) :
    Angle.from_str s = Except.error ParseAngleError.UnrecognizedUnit := by
  simp [Angle.from_str, h1, h2]

theorem parseF64_error_iff (t : List Char) :
    (∃ e, parseF64 t = Except.error e) ↔ validF64 t = false := by
  unfold parseF64
  cases he : t.isEmpty with
  | true =>
    have ht : t = [] := List.isEmpty_iff.1 he
    subst ht
    have hv : validF64 ([] : List Char) = false := by decide
    simp [hv]
  | false =>
    cases hv : validF64 t with
    | true => simp
    | false => simp

/-- Claim C2. `from_str` fails with `UnrecognizedUnit` exactly when the input
ends with neither the degree marker `'º'` nor `"rad."`; it fails with
`ParseFloatError e` exactly when a marker matches but the prefix obtained by
stripping the marker occurrences and trailing whitespace is rejected by the
float parser (wrapping that parser's error `e`, which occurs exactly when the
prefix is not a valid floating-point literal); otherwise it succeeds with the
parsed angle.  There are no other error conditions. -/
theorem from_str_error_conditions (s : List Char) :
    (Angle.from_str s = Except.error ParseAngleError.UnrecognizedUnit
        ↔ endsWithChar s degMarker = false ∧ endsWithSeq s radMarker = false)
    ∧ (∀ e, Angle.from_str s
          = Except.error (ParseAngleError.ParseFloatError e)
        ↔ (endsWithChar s degMarker = true
            ∧ parseF64 (trimEnd (trimEndMatchesChar s degMarker))
                = Except.error e)
          ∨ (endsWithChar s degMarker = false
            ∧ endsWithSeq s radMarker = true
            ∧ parseF64 (trimEnd (trimEndMatchesSeq s radMarker))
                = Except.error e))
    ∧ (∀ a, Angle.from_str s = Except.ok a
        ↔ (endsWithChar s degMarker = true
            ∧ ∃ deg, parseF64 (trimEnd (trimEndMatchesChar s degMarker))
                = Except.ok deg ∧ a = Angle.Degrees deg)
          ∨ (endsWithChar s degMarker = false
            ∧ endsWithSeq s radMarker = true
            ∧ ∃ rad, parseF64 (trimEnd (trimEndMatchesSeq s radMarker))
                = Except.ok rad ∧ a = Angle.Radians rad))
    ∧ (∀ t, (∃ e, parseF64 t = Except.error e) ↔ validF64 t = false) := by
  refine ⟨?_, ?_, ?_, fun t => parseF64_error_iff t⟩ <;>
  · cases hd : endsWithChar s degMarker with
    | true =>
      have hb := from_str_deg_branch s hd
      cases hp : parseF64 (trimEnd (trimEndMatchesChar s degMarker)) with
      | ok v =>
        rw [hp] at hb
        simp [hb, hd, hp]
        try exact fun a => eq_comm
      | error e0 => rw [hp] at hb; simp [hb, hd, hp]
    | false =>
      cases hr : endsWithSeq s radMarker with
      | true =>
        have hb := from_str_rad_branch s hd hr
        cases hp : parseF64 (trimEnd (trimEndMatchesSeq s radMarker)) with
        | ok v =>
          rw [hp] at hb
          simp [hb, hd, hr, hp]
          try exact fun a => eq_comm
        | error e0 => rw [hp] at hb; simp [hb, hd, hr, hp]
      | false =>
        have hb := from_str_none s hd hr
        simp [hb, hd, hr]

/-! ### Concrete float-literal evaluations -/

theorem f64Val_45 : f64Val "45".data = 45 := by
  have hsp : splitSign "45".data = (false, "45".data) := rfl
  have hman : mantissaVal "45".data = (((45 : ℕ) : ℚ), []) := by decide
  simp only [f64Val, hsp, hman, expTailVal]
  norm_num

theorem parse_num_45 : parseF64 "45".data = Except.ok ((45 : ℚ)) := by
  have hemp : ("45".data.isEmpty) = false := rfl
  have hval : validF64 "45".data = true := by decide
  simp [parseF64, hemp, hval]
  exact f64Val_45

theorem f64Val_1 : f64Val "1".data = 1 := by
  have hsp : splitSign "1".data = (false, "1".data) := rfl
  have hman : mantissaVal "1".data = (((1 : ℕ) : ℚ), []) := by decide
  simp only [f64Val, hsp, hman, expTailVal]
  norm_num

theorem parse_num_1 : parseF64 "1".data = Except.ok ((1 : ℚ)) := by
  have hemp : ("1".data.isEmpty) = false := rfl
  have hval : validF64 "1".data = true := by decide
  simp [parseF64, hemp, hval]
  exact f64Val_1

theorem f64Val_pi4 :
    f64Val "0.7853981633974483".data = (7853981633974483 : ℚ) / 10 ^ 16 := by
  have hsp : splitSign "0.7853981633974483".data
      = (false, "0.7853981633974483".data) := rfl
  have h1 : "0.7853981633974483".data.takeWhile Char.isDigit = ['0'] := by decide
  have h2 : "0.7853981633974483".data.dropWhile Char.isDigit
      = '.' :: "7853981633974483".data := by decide
  have h3 : "7853981633974483".data.takeWhile Char.isDigit
      = "7853981633974483".data := by decide
  have h4 : "7853981633974483".data.dropWhile Char.isDigit = [] := by decide
  have h5 : digitsToNat ['0'] = 0 := by decide
  have h6 : digitsToNat "7853981633974483".data = 7853981633974483 := by decide
  have h7 : ("7853981633974483".data).length = 16 := by decide
  have hman : mantissaVal "0.7853981633974483".data
      = (((0 : ℕ) : ℚ) + ((7853981633974483 : ℕ) : ℚ) / 10 ^ 16, []) := by
    simp only [mantissaVal, h1, h2, List.head?_cons, List.tail_cons]
    rw [(by decide : ((some '.' == some '.') = true))]
    simp only [if_true]
    rw [h3, h4, h5, h6, h7]
  simp only [f64Val, hsp, hman, expTailVal]
  norm_num

theorem parse_num_pi4 :
    parseF64 "0.7853981633974483".data
      = Except.ok ((7853981633974483 : ℚ) / 10 ^ 16) := by
  have hemp : ("0.7853981633974483".data.isEmpty) = false := rfl
  have hval : validF64 "0.7853981633974483".data = true := by decide
  simp [parseF64, hemp, hval]
  exact f64Val_pi4

/-! ### C7: the two concrete parsing scenarios -/

/-- Claim C7. Parsing `"45º"` yields a `Degrees`-tagged angle of magnitude
`45.0`, and parsing `"0.7853981633974483 rad."` yields a `Radians`-tagged
angle whose degree conversion lies within `10⁻⁹` of `45.0`. -/
theorem parse_concrete_scenarios :
    Angle.from_str "45º".data = Except.ok (Angle.Degrees 45)
    ∧ Angle.from_str "0.7853981633974483 rad.".data
        = Except.ok (Angle.Radians ((7853981633974483 : ℚ) / 10 ^ 16))
    ∧ |(Angle.Radians ((7853981633974483 : ℚ) / 10 ^ 16)).to_degrees.unwrap
        - 45| ≤ 1 / 10 ^ 9 := by
  refine ⟨?_, ?_, ?_⟩
  · have hd : endsWithChar "45º".data degMarker = true := by decide
    rw [from_str_deg_branch _ hd]
    have harg : trimEnd (trimEndMatchesChar "45º".data degMarker)
        = "45".data := by decide
    rw [harg, parse_num_45]
  · have hd : endsWithChar "0.7853981633974483 rad.".data degMarker = false := by
      decide
    have hr : endsWithSeq "0.7853981633974483 rad.".data radMarker = true := by
      decide
    rw [from_str_rad_branch _ hd hr]
    have harg : trimEnd
        (trimEndMatchesSeq "0.7853981633974483 rad.".data radMarker)
        = "0.7853981633974483".data := by decide
    rw [harg, parse_num_pi4]
  · show |F64.to_degrees ((7853981633974483 : ℚ) / 10 ^ 16) - 45| ≤ 1 / 10 ^ 9
    unfold F64.to_degrees PI
    rw [abs_le]
    constructor <;> norm_num

/-! ### C1: the Display/FromStr round-trip -/

theorem fmtF64_natCast (n : ℕ) : fmtF64 ((n : ℚ)) = natDigits n := by
  simp only [fmtF64]
  rw [abs_of_nonneg (by positivity : (0 : ℚ) ≤ (n : ℚ)), Int.floor_natCast,
    Int.toNat_ofNat]
  have hfp : (n : ℚ) - (((n : ℕ) : ℤ) : ℚ) = 0 := by push_cast; ring
  rw [hfp, if_neg (not_lt.2 (by positivity : (0 : ℚ) ≤ (n : ℚ)))]
  simp

/-- Claim C1. The claimed Display/FromStr round-trip FAILS on the degree side:
`Display` writes the U+00B0 DEGREE SIGN but `from_str` only accepts the
U+00BA MASCULINE ORDINAL INDICATOR (and `main.rs` even prompts the user with
U+00B0), so parsing the display of `Degrees 45` yields
`Err(UnrecognizedUnit)` instead of the angle itself.  The radian side does
round-trip. -/
theorem display_roundtrip_bug :
    Angle.from_str ((Angle.Degrees (45 : ℚ)).display)
        = Except.error ParseAngleError.UnrecognizedUnit
    ∧ Angle.from_str ((Angle.Radians (45 : ℚ)).display)
        = Except.ok (Angle.Radians (45 : ℚ)) := by
  have h45 : fmtF64 (45 : ℚ) = "45".data := by
    rw [(by norm_num : (45 : ℚ) = ((45 : ℕ) : ℚ)), fmtF64_natCast]
    decide
  constructor
  · show Angle.from_str (fmtF64 (45 : ℚ) ++ [degDisplayMarker]) = _
    rw [h45, (by decide : "45".data ++ [degDisplayMarker] = "45°".data)]
    exact from_str_none _ (by decide) (by decide)
  · show Angle.from_str (fmtF64 (45 : ℚ) ++ " rad.".data) = _
    rw [h45, (by decide : "45".data ++ " rad.".data = "45 rad.".data)]
    rw [from_str_rad_branch _ (by decide) (by decide)]
    have harg : trimEnd (trimEndMatchesSeq "45 rad.".data radMarker)
        = "45".data := by decide
    rw [harg, parse_num_45]

/-! ### C10: tolerance for repeated markers and trailing whitespace -/

theorem trimAux_nil (f : ℕ) (pat : List Char) :
    trimEndMatchesSeqAux f [] pat = [] := by
  cases f with
  | zero => rfl
  | succ k =>
    rw [trimEndMatchesSeqAux]
    have hc : (pat.isSuffixOf ([] : List Char) && !pat.isEmpty) = false := by
      cases hsf : pat.isSuffixOf ([] : List Char) with
      | false => rfl
      | true =>
        have hp : pat = [] :=
          List.suffix_nil.1 (List.isSuffixOf_iff_suffix.1 hsf)
        subst hp
        rfl
    rw [hc]
    rfl

theorem trimAux_fuel_eq (n : ℕ) :
    ∀ (f1 f2 : ℕ) (s pat : List Char), s.length ≤ n → s.length ≤ f1 →
      s.length ≤ f2 →
      trimEndMatchesSeqAux f1 s pat = trimEndMatchesSeqAux f2 s pat := by
  induction n with
  | zero =>
    intro f1 f2 s pat hn _ _
    have hs : s = [] := List.length_eq_zero.1 (Nat.le_zero.1 hn)
    subst hs
    rw [trimAux_nil, trimAux_nil]
  | succ n ih =>
    intro f1 f2 s pat hn h1 h2
    cases f1 with
    | zero =>
      have hs : s = [] := List.length_eq_zero.1 (Nat.le_zero.1 h1)
      subst hs
      rw [trimAux_nil, trimAux_nil]
    | succ a =>
      cases f2 with
      | zero =>
        have hs : s = [] := List.length_eq_zero.1 (Nat.le_zero.1 h2)
        subst hs
        rw [trimAux_nil, trimAux_nil]
      | succ b =>
        rw [trimEndMatchesSeqAux, trimEndMatchesSeqAux]
        cases hc : (pat.isSuffixOf s && !pat.isEmpty) with
        | false => rfl
        | true =>
          rw [if_pos rfl, if_pos rfl]
          rw [Bool.and_eq_true] at hc
          obtain ⟨hsuf, hne⟩ := hc
          have hsuffix : pat <:+ s := List.isSuffixOf_iff_suffix.1 hsuf
          have hple : pat.length ≤ s.length := hsuffix.length_le
          have hppos : pat ≠ [] := by
            intro he
            subst he
            simp at hne
          have hplen : 0 < pat.length := List.length_pos.2 hppos
          apply ih
          · rw [List.length_take]; omega
          · rw [List.length_take]; omega
          · rw [List.length_take]; omega

theorem trimSeq_append (pat : List Char) (hp : pat ≠ []) (t : List Char) :
    trimEndMatchesSeq (t ++ pat) pat = trimEndMatchesSeq t pat := by
  unfold trimEndMatchesSeq
  obtain ⟨c, cs, rfl⟩ : ∃ c cs, pat = c :: cs := by
    cases pat with
    | nil => exact absurd rfl hp
    | cons c cs => exact ⟨c, cs, rfl⟩
  rw [List.length_append, List.length_cons]
  rw [show t.length + (cs.length + 1) = (t.length + cs.length) + 1 from rfl]
  rw [trimEndMatchesSeqAux]
  have hcond : ((c :: cs).isSuffixOf (t ++ c :: cs) && !(c :: cs).isEmpty)
      = true := by
    rw [Bool.and_eq_true]
    exact ⟨List.isSuffixOf_iff_suffix.2 (List.suffix_append t (c :: cs)), rfl⟩
  rw [hcond, if_pos rfl]
  have htake : (t ++ c :: cs).take ((t ++ c :: cs).length - (c :: cs).length)
      = t := by
    rw [List.length_append, List.length_cons]
    rw [show t.length + (cs.length + 1) - (cs.length + 1) = t.length by omega]
    exact List.take_left' rfl
  rw [htake]
  exact trimAux_fuel_eq t.length _ _ t (c :: cs) le_rfl (by omega) le_rfl

theorem endsWithChar_append (u v : List Char) (hv : v ≠ []) (c : Char) :
    endsWithChar (u ++ v) c = endsWithChar v c := by
  unfold endsWithChar
  rw [List.getLast?_append]
  cases hl : v.getLast? with
  | some x => rw [Option.or_some]
  | none => exact absurd (List.getLast?_eq_none_iff.1 hl) hv

theorem dropWhile_eq_self_of_head_false (p : Char → Bool) (l : List Char)
    (h : ∀ x, l.head? = some x → p x = false) : l.dropWhile p = l := by
  cases l with
  | nil => rfl
  | cons a rest =>
    rw [List.dropWhile_cons, h a rfl]
    simp

theorem head?_append_cases (l1 l2 : List Char) (x : Char)
    (h : (l1 ++ l2).head? = some x) : x ∈ l1 ∨ l2.head? = some x := by
  cases l1 with
  | nil =>
    right
    simpa using h
  | cons a l =>
    left
    have hax : a = x := by simpa using h
    exact hax ▸ List.mem_cons_self a l

theorem whitespace_ne_degMarker (c : Char) (h : rustIsWhitespace c = true) :
    (c == degMarker) = false := by
  cases hb : (c == degMarker) with
  | false => rfl
  | true =>
    have hc : c = degMarker := beq_iff_eq.1 hb
    subst hc
    exact absurd h (by decide)

theorem trimChar_strip (t ws : List Char) (hws : ws.all rustIsWhitespace = true)
    (ht : endsWithChar t degMarker = false) :
    trimEndMatchesChar ((t ++ ws) ++ [degMarker]) degMarker = t ++ ws := by
  unfold trimEndMatchesChar
  rw [List.reverse_append,
    show ([degMarker] : List Char).reverse = [degMarker] from rfl,
    List.singleton_append,
    @List.dropWhile_cons_of_pos _ (fun x => x == degMarker) _ _ (by decide),
    List.reverse_append]
  rw [dropWhile_eq_self_of_head_false _ _ ?hh]
  case hh =>
    intro x hx
    rcases head?_append_cases _ _ _ hx with hmem | hhead
    · have hxws : x ∈ ws := List.mem_reverse.1 hmem
      exact whitespace_ne_degMarker x (List.all_eq_true.1 hws x hxws)
    · have hlast : t.getLast? = some x := by
        rw [← List.head?_reverse]
        exact hhead
      unfold endsWithChar at ht
      rw [hlast] at ht
      exact ht
  rw [← List.reverse_append, List.reverse_reverse]

theorem trimEnd_append_ws (t ws : List Char)
    (hws : ws.all rustIsWhitespace = true) : trimEnd (t ++ ws) = trimEnd t := by
  unfold trimEnd
  rw [List.reverse_append,
    List.dropWhile_append_of_pos
      (fun a ha => List.all_eq_true.1 hws a (List.mem_reverse.1 ha))]

theorem endsWithSeq_append_rad (u : List Char) :
    endsWithSeq (u ++ radMarker) radMarker = true :=
  List.isSuffixOf_iff_suffix.2 (List.suffix_append u radMarker)

theorem endsWithChar_rad_not_deg (u : List Char) :
    endsWithChar (u ++ radMarker) degMarker = false := by
  rw [endsWithChar_append u radMarker (by decide) degMarker]
  decide

/-- Claim C10. `from_str` strips every trailing occurrence of the unit marker
and then every trailing whitespace character before parsing the numeric
prefix, so a repeated trailing marker or extra whitespace before the marker
never changes the result; in particular `"1 rad.rad."` parses to
`Radians 1` and `"45 \tº"` parses to `Degrees 45`, the same angles as the
single-marker, single-space forms `"1 rad."` and `"45 º"`. -/
theorem from_str_trailing_tolerance :
    (∀ t : List Char, Angle.from_str ((t ++ radMarker) ++ radMarker)
        = Angle.from_str (t ++ radMarker))
    ∧ (∀ t ws : List Char, ws.all rustIsWhitespace = true →
        endsWithChar t degMarker = false →
        Angle.from_str ((t ++ ws) ++ [degMarker])
          = Angle.from_str (t ++ [degMarker]))
    ∧ Angle.from_str "1 rad.rad.".data = Except.ok (Angle.Radians 1)
    ∧ Angle.from_str "45 \tº".data = Except.ok (Angle.Degrees 45)
    ∧ Angle.from_str "1 rad.".data = Except.ok (Angle.Radians 1)
    ∧ Angle.from_str "45 º".data = Except.ok (Angle.Degrees 45) := by
  refine ⟨?_, ?_, ?_, ?_, ?_, ?_⟩
  · intro t
    rw [from_str_rad_branch _ (endsWithChar_rad_not_deg (t ++ radMarker))
        (endsWithSeq_append_rad (t ++ radMarker)),
      from_str_rad_branch _ (endsWithChar_rad_not_deg t)
        (endsWithSeq_append_rad t)]
    rw [trimSeq_append radMarker (by decide) (t ++ radMarker)]
  · intro t ws hws ht
    have h1 : endsWithChar ((t ++ ws) ++ [degMarker]) degMarker = true := by
      rw [endsWithChar_append _ [degMarker] (by simp) degMarker]
      decide
    have h2 : endsWithChar (t ++ [degMarker]) degMarker = true := by
      rw [endsWithChar_append _ [degMarker] (by simp) degMarker]
      decide
    rw [from_str_deg_branch _ h1, from_str_deg_branch _ h2]
    have e2 := trimChar_strip t [] rfl ht
    rw [List.append_nil] at e2
    rw [trimChar_strip t ws hws ht, e2, trimEnd_append_ws t ws hws]
  · rw [from_str_rad_branch _ (by decide) (by decide)]
    have harg : trimEnd (trimEndMatchesSeq "1 rad.rad.".data radMarker)
        = "1".data := by decide
    rw [harg, parse_num_1]
  · rw [from_str_deg_branch _ (by decide)]
    have harg : trimEnd (trimEndMatchesChar "45 \tº".data degMarker)
        = "45".data := by decide
    rw [harg, parse_num_45]
  · rw [from_str_rad_branch _ (by decide) (by decide)]
    have harg : trimEnd (trimEndMatchesSeq "1 rad.".data radMarker)
        = "1".data := by decide
    rw [harg, parse_num_1]
  · rw [from_str_deg_branch _ (by decide)]
    have harg : trimEnd (trimEndMatchesChar "45 º".data degMarker)
        = "45".data := by decide
    rw [harg, parse_num_45]

/-- Concrete instances of the universally quantified parts of
`from_str_trailing_tolerance`. -/
theorem from_str_trailing_tolerance_witness :
    Angle.from_str (("1 ".data ++ radMarker) ++ radMarker)
        = Angle.from_str ("1 ".data ++ radMarker)
    ∧ Angle.from_str (("45".data ++ " \t".data) ++ [degMarker])
        = Angle.from_str ("45".data ++ [degMarker]) :=
  ⟨from_str_trailing_tolerance.1 "1 ".data,
   from_str_trailing_tolerance.2.1 "45".data " \t".data (by decide) (by decide)⟩

/-! ### C9: the dragon-flag branch of `main` -/

/-- The primitive turtle/rendering commands issued by `main`'s dragon branch
(src/main.rs lines 137–160).  The turtle methods are external effects (the
`dragon` module wraps the `turtle` crate); the branch is modelled as the
ordered trace of the commands it issues, with the single call into
`dragon::dragon` recorded as one `dragonCall` command carrying its
arguments. -/
inductive TurtleCmd
  | setBackgroundColor (color : List Char)
  | setTitle (title : List Char)
  | enterFullscreen
  | penUp
  | penDown
  | backward (dist : ℚ)
  | forward (dist : ℚ)
  | right (angle : ℚ)
  | setSpeed (speed : List Char)
  | dragonCall (angle : ℚ) (order : ℕ) (colorStart colorEnd : ℚ)
  | hide
deriving DecidableEq

/-- Is a command the call into the curve-drawing routine? -/
def isDragonCall : TurtleCmd → Bool
  | TurtleCmd.dragonCall _ _ _ _ => true
  | _ => false

/-- The trace of commands issued by the `-d` (dragon) branch of `main`, in
source order: drawing-surface configuration, then pen-up, the moves to the
starting offset, pen-down, the speed change, the single `dragon::dragon`
call, and finally hiding the cursor. -/
def mainDragonBranch : List TurtleCmd :=
  [TurtleCmd.setBackgroundColor "#112244".data,
   TurtleCmd.setTitle "Ooh, a dragon!".data,
   TurtleCmd.enterFullscreen,
   TurtleCmd.penUp,
   TurtleCmd.backward 160,
   TurtleCmd.right 90,
   TurtleCmd.forward 110,
   TurtleCmd.penDown,
   TurtleCmd.setSpeed "faster".data,
   TurtleCmd.dragonCall (-90) 11 0 255,
   TurtleCmd.hide]

/-- Claim C9. Under the dragon flag, `main` performs the one-time setup in
order — raise the pen, move to the starting offset, lower the pen, set a
non-default speed — then calls the curve-drawing routine exactly once, with
outer turn angle `-90` degrees, order `11` and color range `0` to `255`, and
finally hides the cursor. -/
theorem main_dragon_branch_spec :
    (∃ config : List TurtleCmd,
      mainDragonBranch = config ++
        [TurtleCmd.penUp,
         TurtleCmd.backward 160,
         TurtleCmd.right 90,
         TurtleCmd.forward 110,
         TurtleCmd.penDown,
         TurtleCmd.setSpeed "faster".data,
         TurtleCmd.dragonCall (-90) 11 0 255,
         TurtleCmd.hide])
    ∧ mainDragonBranch.countP isDragonCall = 1
    ∧ mainDragonBranch.getLast? = some TurtleCmd.hide :=
  ⟨⟨[TurtleCmd.setBackgroundColor "#112244".data,
     TurtleCmd.setTitle "Ooh, a dragon!".data,
     TurtleCmd.enterFullscreen], rfl⟩, rfl, rfl⟩

end ToyProject
